import Mathlib

/-!
# Verification of the genetic-algorithm music generator core (`mgen.py`)

Shallow embedding of the decoder (`genome_to_melody`, `genome_to_stream`)
and the interactive session API (`init_session_state`,
`_fitness_lookup_from_ratings`, `generate_next_candidate`, `submit_rating`).

Genomes are lists of bits (modelled as `Nat`, with value 0 or 1 in practice);
durations are modelled as exact rationals `ℚ` standing for the Python floats
`4 / num_notes` (the claims under study are structural and do not hinge on
floating-point rounding).

External collaborators that are not part of the core source — the
`algorithms.genetic` operators (`generate_genome`, `selection_pair`,
`single_point_crossover`, `mutation`), the process-wide random generator and
the `music21` scale resolution — are supplied as explicit parameters (the
initial population, the produced child genome, the replacement indices and
the resolved scale-pitch list), exactly at the points where the source
consumes their results.
-/

namespace MGen

/-- `BITS_PER_NOTE = 4` from `mgen.py`. -/
def BITS_PER_NOTE : Nat := 4

/-- `int_from_bits(bits)`: little-endian integer value of a bit list,
`sum(bit * pow(2, index) for index, bit in enumerate(bits))`. -/
def int_from_bits (bits : List Nat) : Nat :=
  (bits.enum.map (fun p => p.2 * 2 ^ p.1)).sum

/-- The intermediate dictionary `melody = {"notes": [], "velocity": [], "beat": []}`
built by the per-chunk loop of `genome_to_melody`: three aligned lists, with
`notes` holding the stored value (0 both for a rest and for scale degree 0),
`velocity` the per-entry velocity (0 for a rest, 127 for a note) and `beat`
the per-entry duration in quarter lengths. -/
structure Melody where
  notes : List Nat
  velocity : List Nat
  beat : List ℚ
  deriving Repr, DecidableEq

/-- One iteration of the per-chunk loop of `genome_to_melody`, phrased on the
already-decoded integer: apply the `% 2^(BITS_PER_NOTE-1)` reduction when
`pauses` is off, then either append a rest (high bit set), extend the last
entry's duration (same stored value as the previous entry), or append a new
note with velocity 127. -/
def decode_int_step (pauses : Bool) (note_length : ℚ) (m : Melody) (integer0 : Nat) : Melody :=
  let integer := if pauses then integer0 else integer0 % 2 ^ (BITS_PER_NOTE - 1)
  if 2 ^ (BITS_PER_NOTE - 1) ≤ integer then
    ⟨m.notes ++ [0], m.velocity ++ [0], m.beat ++ [note_length]⟩
  else if m.notes.getLast? = some integer then
    ⟨m.notes, m.velocity, m.beat.dropLast ++ [m.beat.getLastD 0 + note_length]⟩
  else
    ⟨m.notes ++ [integer], m.velocity ++ [127], m.beat ++ [note_length]⟩

/-- The body of `for note_bits in chunks:` in `genome_to_melody`:
`integer = int_from_bits(note_bits)` followed by `decode_int_step`. -/
def decode_chunk (pauses : Bool) (note_length : ℚ) (m : Melody) (note_bits : List Nat) : Melody :=
  decode_int_step pauses note_length m (int_from_bits note_bits)

/-- The integer a chunk effectively carries into the rest test: its
little-endian value, reduced `% 2^(BITS_PER_NOTE-1)` when pauses are off. -/
def eff_int (pauses : Bool) (bits : List Nat) : Nat :=
  if pauses then int_from_bits bits else int_from_bits bits % 2 ^ (BITS_PER_NOTE - 1)

/-- `chunks = [genome[i*BITS_PER_NOTE : i*BITS_PER_NOTE + BITS_PER_NOTE] for i in
range(num_bars * num_notes)]`. Python slicing clamps to the list's length, which
`drop`/`take` model exactly. -/
def melody_chunks (genome : List Nat) (num_bars num_notes : Nat) : List (List Nat) :=
  (List.range (num_bars * num_notes)).map
    (fun i => (genome.drop (i * BITS_PER_NOTE)).take BITS_PER_NOTE)

/-- The per-chunk phase of `genome_to_melody` (lines 73–105): fold the chunk
decoder over all chunks, starting from the empty melody, with
`note_length = 4 / num_notes`. -/
def genome_to_melody_core (genome : List Nat) (num_bars num_notes : Nat) (pauses : Bool) : Melody :=
  (melody_chunks genome num_bars num_notes).foldl
    (decode_chunk pauses (4 / (num_notes : ℚ))) ⟨[], [], []⟩

/-- The step-expansion phase of `genome_to_melody` (lines 107–116): for each
step `s < num_steps`, map each stored value `v` to `0` when `v == 0` and to
`scale_pitches[(v + s*2) % len(scale_pitches)]` otherwise. `scale_pitches`
is the midi-pitch list resolved by `music21` (an external collaborator),
never empty thanks to the major-scale fallback in the source. -/
def step_expand (scale_pitches : List Nat) (num_steps : Nat) (notes : List Nat) : List (List Nat) :=
  (List.range num_steps).map (fun step =>
    notes.map (fun v =>
      if v = 0 then 0
      else scale_pitches.getD ((v + step * 2) % scale_pitches.length) 0))

/-- The value returned by `genome_to_melody`: the melody dictionary after
`melody["notes"] = steps` — per-step midi sequences (`0` = rest, per the
source's docstring) plus the per-entry velocities and durations. -/
structure DecodedMelody where
  steps : List (List Nat)
  velocity : List Nat
  beat : List ℚ
  deriving Repr, DecidableEq

/-- `genome_to_melody` in full: the per-chunk phase followed by step expansion. -/
def genome_to_melody (genome : List Nat) (num_bars num_notes num_steps : Nat)
    (pauses : Bool) (scale_pitches : List Nat) : DecodedMelody :=
  let m := genome_to_melody_core genome num_bars num_notes pauses
  ⟨step_expand scale_pitches num_steps m.notes, m.velocity, m.beat⟩

/-- One element inserted into a `music21` stream by `genome_to_stream`:
`note.Rest()` when the midi value is 0, otherwise a `note.Note` with the
entry's velocity; both carry the entry's `quarterLength` duration. -/
inductive StreamEntry where
  | rest (dur : ℚ)
  | note (midi : Nat) (vel : Nat) (dur : ℚ)
  deriving Repr, DecidableEq

/-- `genome_to_stream` (minus tempo/instrument marks and the music21 container):
for each step sequence, each midi value becomes a rest iff it is 0. -/
def genome_to_stream (genome : List Nat) (num_bars num_notes num_steps : Nat)
    (pauses : Bool) (scale_pitches : List Nat) : List (List StreamEntry) :=
  let melody := genome_to_melody genome num_bars num_notes num_steps pauses scale_pitches
  melody.steps.map (fun step_notes =>
    step_notes.enum.map (fun p =>
      let dur := melody.beat.getD p.1 0
      if p.2 = 0 then StreamEntry.rest dur
      else StreamEntry.note p.2 (melody.velocity.getD p.1 0) dur))

/-- A genome: a bit list. -/
abbrev Genome := List Nat

/-- The session dictionary built by `init_session_state`. -/
structure SessionState where
  num_bars : Nat
  num_notes : Nat
  pauses : Bool
  key : String
  scale : String
  bpm : Nat
  population_size : Nat
  num_mutations : Nat
  mutation_prob : ℚ
  population : List Genome
  ratings : List (Genome × Int)
  last_genome : Option Genome
  last_candidate_id : Option String
  generation : Nat
  deriving Repr, DecidableEq

/-- `init_session_state`: fresh state with an empty rating history, no last
genome/candidate and generation 0. The population of `population_size` random
genomes drawn by `generate_genome` (from `algorithms.genetic`, outside the
core source) is supplied as `initial_population`. -/
def init_session_state (num_bars num_notes : Nat) (pauses : Bool) (key scale : String)
    (bpm population_size num_mutations : Nat) (mutation_prob : ℚ)
    (initial_population : List Genome) : SessionState :=
  { num_bars := num_bars
    num_notes := num_notes
    pauses := pauses
    key := key
    scale := scale
    bpm := bpm
    population_size := population_size
    num_mutations := num_mutations
    mutation_prob := mutation_prob
    population := initial_population
    ratings := []
    last_genome := none
    last_candidate_id := none
    generation := 0 }

/-- The linear scan of `_fitness_lookup_from_ratings`: walk the rating history
in order and return the rating of the first record whose genome equals the
query; 0 when none matches. -/
def fitness_lookup (ratings : List (Genome × Int)) (genome : Genome) : Int :=
  match ratings with
  | [] => 0
  | (g, r) :: rest => if g = genome then r else fitness_lookup rest genome

/-- `_fitness_lookup_from_ratings(state)`: the fitness function over the
session's current rating history. -/
def fitness_lookup_from_ratings (state : SessionState) : Genome → Int :=
  fun genome => fitness_lookup state.ratings genome

/-- `generate_next_candidate`: bump the generation counter, overwrite the
population slot `replace_idx` (drawn by `random.randrange(len(population))`)
with the freshly bred `child` (the result of selection, crossover, child
choice and mutation — operators from `algorithms.genetic`, outside the core
source, driven by the process RNG), remember it as `last_genome`, and record a
fresh candidate id `f"g{generation}_{rand_id}"` (with `rand_id` drawn by
`random.randint(100000, 999999)`). Returns the updated state and the id. -/
def generate_next_candidate (state : SessionState) (child : Genome)
    (replace_idx : Nat) (rand_id : Nat) : SessionState × String :=
  let st1 := { state with generation := state.generation + 1 }
  let st2 := { st1 with
    population := st1.population.set replace_idx child
    last_genome := some child }
  let candidate_id := "g" ++ toString st2.generation ++ "_" ++ toString rand_id
  ({ st2 with last_candidate_id := some candidate_id }, candidate_id)

/-- `submit_rating(state, candidate_id, rating)`: clamp the rating to `[0,5]`;
if `last_genome` is unset do nothing; otherwise append `(last_genome, rating)`
to the history and, when the clamped rating is ≥ 4, overwrite the population
slot `elite_idx` (drawn by `random.randrange(len(population))`) with
`last_genome`. The `candidate_id` argument appears in the source's signature
but is never read by the body. -/
def submit_rating (state : SessionState) (candidate_id : String) (rating : Int)
    (elite_idx : Nat) : SessionState :=
  let r := max 0 (min 5 rating)
  match state.last_genome with
  | none => state
  | some g =>
    let st := { state with ratings := state.ratings ++ [(g, r)] }
    if 4 ≤ r then { st with population := st.population.set elite_idx g }
    else st

/-- One externally observable call against a session, with the draws of the
external RNG and genetic operators made explicit. -/
inductive SessionOp where
  | produce (child : Genome) (replace_idx : Nat) (rand_id : Nat)
  | rate (candidate_id : String) (rating : Int) (elite_idx : Nat)

/-- Apply one session operation to a state. -/
def apply_op (state : SessionState) : SessionOp → SessionState
  | .produce child ri rid => (generate_next_candidate state child ri rid).1
  | .rate cid r i => submit_rating state cid r i

/-- Run a sequence of session operations. -/
def run_ops (state : SessionState) (ops : List SessionOp) : SessionState :=
  ops.foldl apply_op state

/-! ## Shared helper lemmas -/

/-- Both session operations preserve the population's length: each overwrites
at most one slot with `List.set`. -/
lemma apply_op_population_length (s : SessionState) (op : SessionOp) :
    (apply_op s op).population.length = s.population.length := by
  cases op with
  | produce child ri rid => simp [apply_op, generate_next_candidate]
  | rate cid r i =>
    cases h : s.last_genome with
    | none => simp [apply_op, submit_rating, h]
    | some g =>
      by_cases h4 : (4 : Int) ≤ max 0 (min 5 r) <;>
        simp [apply_op, submit_rating, h, h4]

/-- Running any sequence of session operations preserves the population's
length. -/
lemma run_ops_population_length (s : SessionState) (ops : List SessionOp) :
    (run_ops s ops).population.length = s.population.length := by
  induction ops generalizing s with
  | nil => rfl
  | cons op rest ih =>
    have h1 : run_ops s (op :: rest) = run_ops (apply_op s op) rest := rfl
    rw [h1, ih (apply_op s op), apply_op_population_length]

/-- A scan that matches no record returns 0. -/
lemma fitness_lookup_eq_zero_of_no_match (l : List (Genome × Int)) (g : Genome)
    (h : ∀ p ∈ l, p.1 ≠ g) : fitness_lookup l g = 0 := by
  induction l with
  | nil => rfl
  | cons p rest ih =>
    rcases p with ⟨a, r⟩
    have ha : a ≠ g := h ⟨a, r⟩ (by simp)
    simp only [fitness_lookup, if_neg ha]
    exact ih (fun q hq => h q (List.mem_cons_of_mem _ hq))

/-- A scan over a history containing a matching record returns the rating of
one of its matching records. -/
lemma fitness_lookup_mem (l : List (Genome × Int)) (g : Genome)
    (h : ∃ p ∈ l, p.1 = g) :
    ∃ p ∈ l, p.1 = g ∧ fitness_lookup l g = p.2 := by
  induction l with
  | nil => simp at h
  | cons p rest ih =>
    rcases p with ⟨a, r⟩
    by_cases ha : a = g
    · exact ⟨⟨a, r⟩, by simp, ha, by simp [fitness_lookup, ha]⟩
    · have h' : ∃ q ∈ rest, q.1 = g := by
        rcases h with ⟨q, hq, hq1⟩
        rcases List.mem_cons.mp hq with rfl | hmem
        · exact absurd hq1 ha
        · exact ⟨q, hmem, hq1⟩
      rcases ih h' with ⟨q, hq, hq1, hq2⟩
      exact ⟨q, List.mem_cons_of_mem _ hq, hq1, by simp [fitness_lookup, ha, hq2]⟩

/-- The little-endian value of a bit list of length at most 4, written through
positional accesses (missing positions behave as 0). -/
lemma int_from_bits_getD (bits : List Nat) (h : bits.length ≤ 4) :
    int_from_bits bits
      = bits.getD 0 0 + 2 * bits.getD 1 0 + 4 * bits.getD 2 0 + 8 * bits.getD 3 0 := by
  rcases bits with _ | ⟨a, _ | ⟨b, _ | ⟨c, _ | ⟨d, _ | ⟨e, t⟩⟩⟩⟩⟩ <;>
    simp_all [int_from_bits, List.enum, List.enumFrom, List.getD] <;> ring

/-- Padding a list with zeros on the right does not change any positional
access with default 0. -/
lemma getD_append_replicate_zero (l : List Nat) (k n : Nat) :
    (l ++ List.replicate k 0).getD n 0 = l.getD n 0 := by
  rw [List.getD_eq_getElem?_getD, List.getD_eq_getElem?_getD, List.getElem?_append]
  split
  · rfl
  · rename_i hn
    rw [show l[n]? = none from List.getElem?_eq_none (by omega), List.getElem?_replicate]
    split <;> rfl

/-- Accessing inside a 4-bit chunk slice is accessing the genome itself. -/
lemma chunk_getD (genome : List Nat) (off j : Nat) (hj : j < 4) :
    ((genome.drop off).take 4).getD j 0 = genome.getD (off + j) 0 := by
  rw [List.getD_eq_getElem?_getD, List.getD_eq_getElem?_getD, List.getElem?_take,
    if_pos hj, List.getElem?_drop]

/-- The integer decoded from a chunk slice is unchanged by zero-padding the
genome on the right. -/
lemma int_from_bits_chunk_pad (genome : List Nat) (k off : Nat) :
    int_from_bits (((genome ++ List.replicate k 0).drop off).take 4)
      = int_from_bits ((genome.drop off).take 4) := by
  rw [int_from_bits_getD _ (by simp [List.length_take]),
    int_from_bits_getD _ (by simp [List.length_take]),
    chunk_getD _ off 0 (by omega), chunk_getD _ off 1 (by omega),
    chunk_getD _ off 2 (by omega), chunk_getD _ off 3 (by omega),
    chunk_getD _ off 0 (by omega), chunk_getD _ off 1 (by omega),
    chunk_getD _ off 2 (by omega), chunk_getD _ off 3 (by omega),
    getD_append_replicate_zero, getD_append_replicate_zero,
    getD_append_replicate_zero, getD_append_replicate_zero]

/-- Folding the chunk decoder is folding the integer decoder over the chunk
integers. -/
lemma foldl_decode_chunk_eq (pauses : Bool) (nl : ℚ) (l : List (List Nat)) (m : Melody) :
    l.foldl (decode_chunk pauses nl) m
      = (l.map int_from_bits).foldl (decode_int_step pauses nl) m := by
  rw [List.foldl_map]
  rfl

/-- The per-chunk phase of the decoder reads only the first
`num_bars * num_notes * 4` bits: zero-padding the genome on the right does not
change its result. -/
lemma genome_to_melody_core_append_replicate (genome : List Nat) (nb nn k : Nat)
    (pauses : Bool) :
    genome_to_melody_core (genome ++ List.replicate k 0) nb nn pauses
      = genome_to_melody_core genome nb nn pauses := by
  unfold genome_to_melody_core melody_chunks
  rw [foldl_decode_chunk_eq, foldl_decode_chunk_eq, List.map_map, List.map_map]
  congr 1
  apply List.map_congr_left
  intro i _
  exact int_from_bits_chunk_pad genome k (i * BITS_PER_NOTE)

/-- Pointwise description of `step_expand`: position `i` of step `s` is the
rest sentinel when the stored value is 0 and the indexed scale pitch
otherwise. -/
lemma step_expand_getD (sp : List Nat) (ns : Nat) (notes : List Nat) (s i : Nat)
    (hs : s < ns) (hi : i < notes.length) :
    ((step_expand sp ns notes).getD s []).getD i 0 =
      if notes.getD i 0 = 0 then 0
      else sp.getD ((notes.getD i 0 + s * 2) % sp.length) 0 := by
  simp only [step_expand, List.getD_eq_getElem?_getD, List.getElem?_map,
    List.getElem?_range hs, Option.map_some', Option.getD_some,
    List.getElem?_eq_getElem hi]

/-! ## Claims about the session API -/

/-- C1 counterexample: `submit_rating` is NOT a no-op for a candidate id that
does not match the session's last-produced candidate — at a session whose last
candidate id is `"g1_123456"`, submitting a rating under the stale id
`"stale"` still appends to the rating history. -/
theorem submit_rating_stale_id_not_noop :
    ¬ ∀ (state : SessionState) (cid : String) (rating : Int) (idx : Nat),
        some cid ≠ state.last_candidate_id →
        (submit_rating state cid rating idx).ratings = state.ratings := by
  intro h
  have h2 := h
    { num_bars := 1, num_notes := 1, pauses := true, key := "C", scale := "major",
      bpm := 120, population_size := 1, num_mutations := 2, mutation_prob := 1/2,
      population := [[0, 0, 0, 0]], ratings := [], last_genome := some [0, 0, 0, 0],
      last_candidate_id := some "g1_123456", generation := 1 }
    "stale" 3 0 (by decide)
  norm_num [submit_rating] at h2

/-- C1 (amended): `submit_rating` ignores its `candidate_id` argument
entirely — the result is the same for any two candidate ids, and the call is a
no-op exactly in the case where `last_genome` is unset. -/
theorem submit_rating_ignores_candidate_id (state : SessionState) (cid cid' : String)
    (rating : Int) (idx : Nat) :
    submit_rating state cid rating idx = submit_rating state cid' rating idx ∧
    (state.last_genome = none → submit_rating state cid rating idx = state) := by
  refine ⟨rfl, fun h => ?_⟩
  simp [submit_rating, h]

/-- C1 witness: on a fresh session state with no last genome, `submit_rating`
leaves the state unchanged. -/
theorem submit_rating_ignores_candidate_id_witness :
    submit_rating
      { num_bars := 1, num_notes := 1, pauses := true, key := "C", scale := "major",
        bpm := 120, population_size := 1, num_mutations := 2, mutation_prob := 1/2,
        population := [[0]], ratings := [], last_genome := none,
        last_candidate_id := none, generation := 0 }
      "stale" 3 0 =
    { num_bars := 1, num_notes := 1, pauses := true, key := "C", scale := "major",
      bpm := 120, population_size := 1, num_mutations := 2, mutation_prob := 1/2,
      population := [[0]], ratings := [], last_genome := none,
      last_candidate_id := none, generation := 0 } :=
  (submit_rating_ignores_candidate_id _ "stale" "other" 3 0).2 rfl

/-- C6: population size is invariant — for a session created over an initial
population of `population_size` genomes, any sequence of produce/rate calls
leaves the population with exactly `population_size` genomes. -/
theorem population_size_invariant (ops : List SessionOp) (num_bars num_notes : Nat)
    (pauses : Bool) (key scale : String) (bpm population_size num_mutations : Nat)
    (mutation_prob : ℚ) (init_pop : List Genome)
    (h : init_pop.length = population_size) :
    (run_ops (init_session_state num_bars num_notes pauses key scale bpm population_size
        num_mutations mutation_prob init_pop) ops).population.length = population_size := by
  rw [run_ops_population_length]
  simpa [init_session_state] using h

/-- C6 witness: a session of 2 genomes still holds 2 genomes after one
produce and one rate call. -/
theorem population_size_invariant_witness :
    (run_ops (init_session_state 1 1 true "C" "major" 120 2 2 (1/2) [[0], [1]])
      [SessionOp.produce [1] 0 100000, SessionOp.rate "g1_100000" 5 1]).population.length
      = 2 :=
  population_size_invariant [SessionOp.produce [1] 0 100000, SessionOp.rate "g1_100000" 5 1]
    1 1 true "C" "major" 120 2 2 (1/2) [[0], [1]] rfl

/-- C7: with `last_genome` set, `submit_rating` clamps the rating into `[0,5]`,
appends `(last_genome, clamped)` to the history, and overwrites population slot
`idx` with `last_genome` exactly when the clamped rating is ≥ 4 (otherwise the
population is unchanged). -/
theorem submit_rating_records_and_elite_keeps (state : SessionState) (g : Genome)
    (cid : String) (rating : Int) (idx : Nat) (h : state.last_genome = some g) :
    0 ≤ max 0 (min 5 rating) ∧ max 0 (min 5 rating) ≤ 5 ∧
    (submit_rating state cid rating idx).ratings
      = state.ratings ++ [(g, max 0 (min 5 rating))] ∧
    (4 ≤ max 0 (min 5 rating) →
      (submit_rating state cid rating idx).population = state.population.set idx g) ∧
    (max 0 (min 5 rating) < 4 →
      (submit_rating state cid rating idx).population = state.population) := by
  refine ⟨le_max_left _ _, max_le (by norm_num) (min_le_left _ _), ?_, ?_, ?_⟩
  · by_cases h4 : (4 : Int) ≤ max 0 (min 5 rating) <;> simp [submit_rating, h, h4]
  · intro h4; simp [submit_rating, h, h4]
  · intro h4; simp [submit_rating, h, not_le.mpr h4]

/-- C7 witness: an out-of-range rating 7 is clamped to 5 and recorded for the
last genome `[1, 1]`. -/
theorem submit_rating_records_and_elite_keeps_witness :
    (submit_rating
      { num_bars := 1, num_notes := 1, pauses := true, key := "C", scale := "major",
        bpm := 120, population_size := 1, num_mutations := 2, mutation_prob := 1/2,
        population := [[1, 1]], ratings := [], last_genome := some [1, 1],
        last_candidate_id := some "g1_100000", generation := 1 }
      "g1_100000" 7 0).ratings =
    ({ num_bars := 1, num_notes := 1, pauses := true, key := "C", scale := "major",
       bpm := 120, population_size := 1, num_mutations := 2, mutation_prob := 1/2,
       population := [[1, 1]], ratings := [], last_genome := some [1, 1],
       last_candidate_id := some "g1_100000", generation := 1 } : SessionState).ratings
      ++ [([1, 1], max 0 (min 5 7))] :=
  (submit_rating_records_and_elite_keeps _ [1, 1] "g1_100000" 7 0 rfl).2.2.1

/-- C8: the fitness lookup over the rating history returns the rating of a
record whose genome equals the query, and returns 0 when no record matches; in
particular an empty history makes every genome's fitness 0, so candidate
production never lacks a fitness value. -/
theorem fitness_lookup_matches_or_zero (state : SessionState) (g : Genome) :
    (state.ratings = [] → fitness_lookup_from_ratings state g = 0) ∧
    ((∀ p ∈ state.ratings, p.1 ≠ g) → fitness_lookup_from_ratings state g = 0) ∧
    ((∃ p ∈ state.ratings, p.1 = g) →
      ∃ p ∈ state.ratings, p.1 = g ∧ fitness_lookup_from_ratings state g = p.2) := by
  refine ⟨fun h => ?_, fun h => ?_, fun h => ?_⟩
  · simp [fitness_lookup_from_ratings, h, fitness_lookup]
  · exact fitness_lookup_eq_zero_of_no_match _ _ h
  · exact fitness_lookup_mem _ _ h

/-- C8 witness: on a session with an empty rating history the fitness of a
genome is 0. -/
theorem fitness_lookup_matches_or_zero_witness :
    fitness_lookup_from_ratings
      { num_bars := 1, num_notes := 1, pauses := true, key := "C", scale := "major",
        bpm := 120, population_size := 1, num_mutations := 2, mutation_prob := 1/2,
        population := [[0]], ratings := [], last_genome := none,
        last_candidate_id := none, generation := 0 }
      [0] = 0 :=
  (fitness_lookup_matches_or_zero _ [0]).1 rfl

/-- C10: the history scan is first-match-wins — when the earliest matching
record for genome `g` carries rating `r`, later duplicate records for `g`
never affect the looked-up fitness. -/
theorem fitness_lookup_first_match_wins (pre post : List (Genome × Int)) (g : Genome)
    (r : Int) (h : ∀ p ∈ pre, p.1 ≠ g) :
    fitness_lookup (pre ++ (g, r) :: post) g = r := by
  induction pre with
  | nil => simp [fitness_lookup]
  | cons p rest ih =>
    rcases p with ⟨a, s⟩
    have ha : a ≠ g := h ⟨a, s⟩ (by simp)
    simp only [List.cons_append, fitness_lookup, if_neg ha]
    exact ih (fun q hq => h q (List.mem_cons_of_mem _ hq))

/-- C10 witness: with history `[([0],1), ([1],2), ([1],5)]` the fitness of
`[1]` is 2, the earliest matching rating — the later rating 5 of the duplicate
genome is ignored. -/
theorem fitness_lookup_first_match_wins_witness :
    fitness_lookup ([([0], 1)] ++ ([1], 2) :: [([1], 5)]) [1] = 2 :=
  fitness_lookup_first_match_wins [([0], 1)] [([1], 5)] [1] 2 (by decide)

/-! ## Claims about the decoder -/

/-- C2 counterexample: the chunk `0000` of the one-chunk genome decodes to the
non-rest entry (value 0, velocity 127), yet step expansion outputs the rest
sentinel 0 for it rather than `scale_pitches[(0 + 0*2) % 8] = 60` — a non-rest
scale-degree-0 entry does not get the claimed sounding pitch. -/
theorem step_expand_degree_zero_counterexample :
    (genome_to_melody [0, 0, 0, 0] 1 1 1 true [60, 62, 64, 65, 67, 69, 71, 72]).velocity
      = [127] ∧
    (genome_to_melody [0, 0, 0, 0] 1 1 1 true [60, 62, 64, 65, 67, 69, 71, 72]).steps
      = [[0]] ∧
    [60, 62, 64, 65, 67, 69, 71, 72].getD
      ((0 + 0 * 2) % [60, 62, 64, 65, 67, 69, 71, 72].length) 0 = 60 := by
  refine ⟨?_, ?_, ?_⟩ <;> decide

/-- C2 (amended): in step expansion, position `i` of step `s` carries
`scale_pitches[(v + s*2) % len]` when the stored value `v` is nonzero, and the
rest sentinel 0 when `v = 0` — whether that 0 came from a rest or from a
scale-degree-0 note. -/
theorem step_expand_pitch_formula (genome : List Nat) (num_bars num_notes num_steps : Nat)
    (pauses : Bool) (scale_pitches : List Nat) (s i : Nat) (hs : s < num_steps)
    (hi : i < (genome_to_melody_core genome num_bars num_notes pauses).notes.length) :
    (((genome_to_melody genome num_bars num_notes num_steps pauses
        scale_pitches).steps.getD s []).getD i 0) =
      if (genome_to_melody_core genome num_bars num_notes pauses).notes.getD i 0 = 0 then 0
      else scale_pitches.getD
        (((genome_to_melody_core genome num_bars num_notes pauses).notes.getD i 0 + s * 2)
          % scale_pitches.length) 0 := by
  have h := step_expand_getD scale_pitches num_steps
    (genome_to_melody_core genome num_bars num_notes pauses).notes s i hs hi
  simpa [genome_to_melody] using h

/-- C2 witness: for the one-chunk genome `0100` (scale degree 2), step 0
position 0 of the expanded melody is given by the pitch formula. -/
theorem step_expand_pitch_formula_witness :
    (((genome_to_melody [0, 1, 0, 0] 1 1 1 true
        [60, 62, 64, 65, 67, 69, 71, 72]).steps.getD 0 []).getD 0 0) =
      if (genome_to_melody_core [0, 1, 0, 0] 1 1 true).notes.getD 0 0 = 0 then 0
      else [60, 62, 64, 65, 67, 69, 71, 72].getD
        (((genome_to_melody_core [0, 1, 0, 0] 1 1 true).notes.getD 0 0 + 0 * 2)
          % [60, 62, 64, 65, 67, 69, 71, 72].length) 0 :=
  step_expand_pitch_formula [0, 1, 0, 0] 1 1 1 true [60, 62, 64, 65, 67, 69, 71, 72] 0 0
    (by decide) (by decide)

/-- C3 counterexample: the two-chunk genome `0001 0000` (a rest chunk followed
by a scale-degree-0 chunk, pauses allowed) decodes to a SINGLE entry — the
rest, with velocity 0, whose duration has been extended from 2 to 4 — so a
degree-0 note does merge with an immediately preceding rest. -/
theorem merge_across_rest_counterexample :
    genome_to_melody_core [0, 0, 0, 1, 0, 0, 0, 0] 1 2 true = ⟨[0], [0], [4]⟩ := by
  norm_num [genome_to_melody_core, melody_chunks, decode_chunk, decode_int_step,
    int_from_bits, List.enum, List.enumFrom, BITS_PER_NOTE, List.range_succ]

/-- `decode_chunk` written as one case split on the effective chunk integer. -/
lemma decode_chunk_eq (pauses : Bool) (nl : ℚ) (m : Melody) (bits : List Nat) :
    decode_chunk pauses nl m bits =
      if 2 ^ (BITS_PER_NOTE - 1) ≤ eff_int pauses bits then
        ⟨m.notes ++ [0], m.velocity ++ [0], m.beat ++ [nl]⟩
      else if m.notes.getLast? = some (eff_int pauses bits) then
        ⟨m.notes, m.velocity, m.beat.dropLast ++ [m.beat.getLastD 0 + nl]⟩
      else
        ⟨m.notes ++ [eff_int pauses bits], m.velocity ++ [127], m.beat ++ [nl]⟩ := by
  cases pauses <;> rfl

/-- C3 (amended): a rest chunk always appends a fresh entry; a non-rest chunk
extends the previous entry exactly when the previous entry's stored value
equals the chunk's decoded value; and when that value is ≥ 1 the extended
entry is necessarily a non-rest note (velocity 127) of the same degree — only
the value-0 case can merge a note into a preceding rest. The hypotheses hold
for every melody the decoder builds (alignment, and value ≥ 1 ⇒ velocity
127). -/
theorem merge_condition_characterization (pauses : Bool) (note_length : ℚ) (m : Melody)
    (bits : List Nat)
    (hlen : m.notes.length = m.velocity.length)
    (hinv : ∀ i, i < m.notes.length → 1 ≤ m.notes.getD i 0 → m.velocity.getD i 0 = 127) :
    (2 ^ (BITS_PER_NOTE - 1) ≤ eff_int pauses bits →
      (decode_chunk pauses note_length m bits).notes = m.notes ++ [0]) ∧
    (eff_int pauses bits < 2 ^ (BITS_PER_NOTE - 1) →
      ((decode_chunk pauses note_length m bits).notes = m.notes ↔
        m.notes.getLast? = some (eff_int pauses bits))) ∧
    (eff_int pauses bits < 2 ^ (BITS_PER_NOTE - 1) → 1 ≤ eff_int pauses bits →
      m.notes.getLast? = some (eff_int pauses bits) →
      m.velocity.getLast? = some 127) := by
  rw [decode_chunk_eq]
  refine ⟨fun h8 => ?_, fun h8 => ?_, fun h8 h1 hlast => ?_⟩
  · rw [if_pos h8]
  · rw [if_neg (not_le.mpr h8)]
    constructor
    · intro heq
      by_contra hne
      rw [if_neg hne] at heq
      have hl := congrArg List.length heq
      simp only [List.length_append, List.length_cons, List.length_nil] at hl
      omega
    · intro hl
      rw [if_pos hl]
  · rw [List.getLast?_eq_getElem?] at hlast
    have hpos : 0 < m.notes.length := by
      by_contra hz
      have hnil : m.notes = [] := List.eq_nil_of_length_eq_zero (by omega)
      simp [hnil] at hlast
    have hlt : m.notes.length - 1 < m.notes.length := by omega
    have hv : m.notes.getD (m.notes.length - 1) 0 = eff_int pauses bits := by
      rw [List.getD_eq_getElem?_getD, hlast]
      rfl
    have h127 := hinv (m.notes.length - 1) hlt (by rw [hv]; exact h1)
    have hlt2 : m.notes.length - 1 < m.velocity.length := by omega
    rw [List.getLast?_eq_getElem?, ← hlen, List.getElem?_eq_getElem hlt2]
    rw [List.getD_eq_getElem _ _ hlt2] at h127
    rw [h127]

/-- C3 witness: on a melody holding a single rest, a degree-0 chunk leaves the
entry list unchanged (it extends the rest instead of appending). -/
theorem merge_condition_characterization_witness :
    (decode_chunk true 2 ⟨[0], [0], [2]⟩ [0, 0, 0, 0]).notes = [0] :=
  ((merge_condition_characterization true 2 ⟨[0], [0], [2]⟩ [0, 0, 0, 0] rfl
    (by decide)).2.1 (by decide)).mpr (by decide)

/-- C4 counterexample: with `pauses = false`, the all-zero one-chunk genome
still produces a rest in the rendered stream — its scale-degree-0 entry is the
sentinel 0 in the step output, which `genome_to_stream` turns into a rest. -/
theorem pauses_off_rest_in_stream_counterexample :
    genome_to_stream [0, 0, 0, 0] 1 1 1 false [60, 62, 64, 65, 67, 69, 71, 72]
      = [[StreamEntry.rest 4]] := by
  simp [genome_to_stream, genome_to_melody, genome_to_melody_core, melody_chunks,
    decode_chunk, decode_int_step, int_from_bits, step_expand, List.enum, List.enumFrom,
    BITS_PER_NOTE, List.range_succ]

/-- With pauses off, folding the chunk decoder preserves "every entry is a
sounded note": all velocities are 127 and all stored values are < 8. -/
lemma foldl_decode_pauses_off (l : List (List Nat)) (nl : ℚ) (m : Melody)
    (hv : ∀ v ∈ m.velocity, v = 127)
    (hn : ∀ v ∈ m.notes, v < 2 ^ (BITS_PER_NOTE - 1)) :
    (∀ v ∈ (l.foldl (decode_chunk false nl) m).velocity, v = 127) ∧
    (∀ v ∈ (l.foldl (decode_chunk false nl) m).notes, v < 2 ^ (BITS_PER_NOTE - 1)) := by
  induction l generalizing m with
  | nil => exact ⟨hv, hn⟩
  | cons c rest ih =>
    rw [List.foldl_cons]
    apply ih
    · intro v hvmem
      have hmod : int_from_bits c % 2 ^ (BITS_PER_NOTE - 1) < 2 ^ (BITS_PER_NOTE - 1) :=
        Nat.mod_lt _ (by decide)
      simp only [decode_chunk, decode_int_step, Bool.false_eq_true, if_false,
        if_neg (not_le.mpr hmod)] at hvmem
      split at hvmem
      · exact hv v hvmem
      · rcases List.mem_append.mp hvmem with h | h
        · exact hv v h
        · simpa using h
    · intro v hvmem
      have hmod : int_from_bits c % 2 ^ (BITS_PER_NOTE - 1) < 2 ^ (BITS_PER_NOTE - 1) :=
        Nat.mod_lt _ (by decide)
      simp only [decode_chunk, decode_int_step, Bool.false_eq_true, if_false,
        if_neg (not_le.mpr hmod)] at hvmem
      split at hvmem
      · exact hn v hvmem
      · rcases List.mem_append.mp hvmem with h | h
        · exact hn v h
        · simp only [List.mem_singleton] at h
          omega

/-- C4 (amended): with `pauses = false` the rest branch of the per-chunk
decoder is unreachable — every recorded entry is a sounded note with velocity
127 and a stored scale-degree < 8. (Degree-0 entries nonetheless surface as
the rest sentinel 0 after step expansion.) -/
theorem pauses_off_no_rest_entries (genome : List Nat) (num_bars num_notes : Nat) :
    (∀ v ∈ (genome_to_melody_core genome num_bars num_notes false).velocity, v = 127) ∧
    (∀ v ∈ (genome_to_melody_core genome num_bars num_notes false).notes,
      v < 2 ^ (BITS_PER_NOTE - 1)) := by
  unfold genome_to_melody_core
  exact foldl_decode_pauses_off _ _ _ (by simp) (by simp)

/-- C4 witness: the first entry decoded from the all-ones genome with pauses
off has velocity 127 (integer 15 is reduced to scale degree 7, not a rest). -/
theorem pauses_off_no_rest_entries_witness :
    (genome_to_melody_core [1, 1, 1, 1] 1 1 false).velocity.getD 0 0 = 127 :=
  (pauses_off_no_rest_entries [1, 1, 1, 1] 1 1).1
    ((genome_to_melody_core [1, 1, 1, 1] 1 1 false).velocity.getD 0 0) (by decide)

/-- C5 counterexample: the empty genome — far shorter than the
`1 * 1 * 4` bits the configuration calls for — is decoded without any error:
its single out-of-range chunk is the empty slice, which decodes to integer 0,
a scale-degree-0 note of full duration. -/
theorem short_genome_decodes_counterexample :
    (genome_to_melody [] 1 1 1 true [60, 62, 64, 65, 67, 69, 71, 72]).steps = [[0]] ∧
    (genome_to_melody [] 1 1 1 true [60, 62, 64, 65, 67, 69, 71, 72]).velocity = [127] ∧
    (genome_to_melody [] 1 1 1 true [60, 62, 64, 65, 67, 69, 71, 72]).beat = [4] := by
  refine ⟨by decide, by decide, ?_⟩
  norm_num [genome_to_melody, genome_to_melody_core, melody_chunks, decode_chunk,
    decode_int_step, int_from_bits, step_expand, List.enum, List.enumFrom,
    BITS_PER_NOTE, List.range_succ]
  simp

/-- C5 (amended): the decoder never rejects a short genome — it reads the
genome as if it were zero-padded to full length: decoding any genome equals
decoding that genome with any number of zero bits appended, so missing chunks
silently decode as scale-degree-0 notes. -/
theorem decode_zero_pad_invariant (genome : List Nat) (num_bars num_notes num_steps k : Nat)
    (pauses : Bool) (scale_pitches : List Nat) :
    genome_to_melody (genome ++ List.replicate k 0) num_bars num_notes num_steps pauses
        scale_pitches
      = genome_to_melody genome num_bars num_notes num_steps pauses scale_pitches := by
  unfold genome_to_melody
  rw [genome_to_melody_core_append_replicate]

/-- Folding the chunk decoder over chunks that all carry a set high bit (with
pauses allowed) appends one rest entry per chunk, each of duration `nl`. -/
lemma foldl_decode_all_rests (l : List (List Nat)) (nl : ℚ) (m : Melody)
    (h : ∀ c ∈ l, 2 ^ (BITS_PER_NOTE - 1) ≤ int_from_bits c) :
    l.foldl (decode_chunk true nl) m =
      ⟨m.notes ++ List.replicate l.length 0, m.velocity ++ List.replicate l.length 0,
        m.beat ++ List.replicate l.length nl⟩ := by
  induction l generalizing m with
  | nil => simp
  | cons c rest ih =>
    have hc : 2 ^ (BITS_PER_NOTE - 1) ≤ eff_int true c := h c (List.mem_cons_self c rest)
    rw [List.foldl_cons, decode_chunk_eq, if_pos hc,
      ih _ (fun c' h' => h c' (List.mem_cons_of_mem _ h'))]
    simp [List.replicate_succ, List.append_assoc]

/-- C9: a full-length genome whose every chunk has its high bit set decodes
(with pauses allowed) to one rest entry per chunk — all stored values 0, all
velocities 0, each duration `4 / num_notes` — with total duration
`num_bars * num_notes * (4 / num_notes)` quarter lengths, and every step of
the expanded output is all rests. -/
theorem all_high_bit_all_rests (genome : List Nat) (nb nn ns : Nat) (sp : List Nat)
    (hlen : genome.length = nb * nn * 4)
    (hbit : ∀ i, i < nb * nn → genome.getD (i * 4 + 3) 0 = 1) :
    genome_to_melody_core genome nb nn true =
      ⟨List.replicate (nb * nn) 0, List.replicate (nb * nn) 0,
        List.replicate (nb * nn) (4 / (nn : ℚ))⟩ ∧
    (genome_to_melody_core genome nb nn true).beat.sum
      = ((nb * nn : ℕ) : ℚ) * (4 / (nn : ℚ)) ∧
    (genome_to_melody genome nb nn ns true sp).steps
      = List.replicate ns (List.replicate (nb * nn) 0) := by
  have h2pow : (2 : ℕ) ^ (BITS_PER_NOTE - 1) = 8 := by decide
  have hchunks : ∀ c ∈ melody_chunks genome nb nn,
      2 ^ (BITS_PER_NOTE - 1) ≤ int_from_bits c := by
    intro c hc
    rcases List.mem_map.mp hc with ⟨i, hi, rfl⟩
    have hi' : i < nb * nn := List.mem_range.mp hi
    rw [int_from_bits_getD _ (by simp [List.length_take, BITS_PER_NOTE])]
    simp only [BITS_PER_NOTE]
    rw [chunk_getD genome (i * 4) 3 (by omega), hbit i hi']
    omega
  have hlen_chunks : (melody_chunks genome nb nn).length = nb * nn := by
    simp [melody_chunks]
  have hcore : genome_to_melody_core genome nb nn true =
      ⟨List.replicate (nb * nn) 0, List.replicate (nb * nn) 0,
        List.replicate (nb * nn) (4 / (nn : ℚ))⟩ := by
    rw [genome_to_melody_core, foldl_decode_all_rests _ _ _ hchunks]
    simp [hlen_chunks]
  refine ⟨hcore, ?_, ?_⟩
  · rw [hcore]
    simp [List.sum_replicate, nsmul_eq_mul]
  · rw [genome_to_melody, hcore]
    unfold step_expand
    simp [List.map_replicate, List.map_const']

/-- C9 witness: the genome `0001 0001` (both chunks with high bit set, 1 bar
of 2 notes) expands to a single all-rest step. -/
theorem all_high_bit_all_rests_witness :
    (genome_to_melody [0, 0, 0, 1, 0, 0, 0, 1] 1 2 1 true [60]).steps
      = List.replicate 1 (List.replicate (1 * 2) 0) :=
  (all_high_bit_all_rests [0, 0, 0, 1, 0, 0, 0, 1] 1 2 1 [60] (by decide) (by decide)).2.2

end MGen
